import Mathlib

/-!
Verification of the two-pass alpha extraction core of `pngalpha`
(`src/pngalpha/core.py`, function `extract_alpha_two_pass`; the same
function is repeated verbatim in `src/pngalpha/cli.py`).

The source loads both images as `float64` RGB arrays, checks that the
two array shapes match, and then computes, element-wise over the whole
buffer:

  bg_dist    = sqrt(3.0 * 255 * 255)
  pixel_dist = sqrt((Rw - Rb)^2 + (Gw - Gb)^2 + (Bw - Bb)^2)
  alpha      = clip(1.0 - pixel_dist / bg_dist, 0.0, 1.0)
  alpha_safe = where(alpha > 0.01, alpha, 1.0)
  r_out      = where(alpha > 0.01, Rb / alpha_safe, 0)   (same for g, b)
  each of r_out, g_out, b_out, alpha*255 is rounded (`np.round`,
  which rounds halfway cases to the nearest even value), clipped to
  [0, 255] and stored as an 8-bit channel of the RGBA output.

Every numpy operation involved is element-wise, so the buffer
computation is embedded as a per-pixel function `extract_pixel`
applied at every grid position.  The `float64` intermediate arithmetic
is modelled over the real numbers; `np.round` is modelled by
`roundEven` (round half to even); `np.clip` by `clip`; the
`ValueError` raised on a shape mismatch by an `Except` error value
(the output file is only written after the whole computation, so a
failing call produces no output).  8-bit channel samples are naturals.
-/

namespace Pngalpha

/-- An RGB pixel: three channel samples (the decoded 8-bit values). -/
structure RGB where
  r : ℕ
  g : ℕ
  b : ℕ
deriving DecidableEq

/-- An RGBA pixel: four channel samples, red, green, blue, alpha. -/
structure RGBA where
  r : ℕ
  g : ℕ
  b : ℕ
  a : ℕ
deriving DecidableEq

/-- A two-dimensional RGB pixel buffer, as produced by decoding an
image with `Image.open(...).convert("RGB")`: a height, a width, and a
pixel at every grid position. -/
structure PixelBuffer where
  height : ℕ
  width : ℕ
  pix : ℕ → ℕ → RGB

/-- A two-dimensional RGBA pixel buffer: the engine's output. -/
structure RGBABuffer where
  height : ℕ
  width : ℕ
  pix : ℕ → ℕ → RGBA

/-- The single engine-level error: the two input buffers do not have
the same shape (`raise ValueError("Dimension mismatch: ...")`). -/
inductive ExtractError where
  | shapeMismatch
deriving DecidableEq

/-- Model of `np.clip(x, lo, hi)` on reals. -/
def clip (x lo hi : ℝ) : ℝ := min hi (max x lo)

/-- Model of `np.round`: round to the nearest integer, with halfway
cases going to the nearest even value (numpy's documented rounding). -/
noncomputable def roundEven (x : ℝ) : ℤ :=
  if Int.fract x = 1 / 2 then
    (if ⌊x⌋ % 2 = 0 then ⌊x⌋ else ⌊x⌋ + 1)
  else round x

/-- Model of `np.clip(np.round(x), 0, 255).astype(np.uint8)`: round,
clamp to [0, 255], store as an 8-bit sample.  After the clip the value
is a nonnegative integer at most 255, so the `uint8` cast is exact. -/
noncomputable def quantize (x : ℝ) : ℕ :=
  (min 255 (max (roundEven x) 0)).toNat

/-- `bg_dist = np.sqrt(3.0 * 255 * 255)`, the distance between the
white (255,255,255) and black (0,0,0) backgrounds. -/
noncomputable def bg_dist : ℝ := Real.sqrt (3.0 * 255 * 255)

/-- `pixel_dist`: Euclidean channel-space distance between the
observed pixel on white and the observed pixel on black. -/
noncomputable def pixel_dist (w bk : RGB) : ℝ :=
  Real.sqrt (((w.r : ℝ) - (bk.r : ℝ)) ^ 2
    + ((w.g : ℝ) - (bk.g : ℝ)) ^ 2
    + ((w.b : ℝ) - (bk.b : ℝ)) ^ 2)

/-- `alpha = 1.0 - (pixel_dist / bg_dist)` before clipping. -/
noncomputable def alpha_raw (w bk : RGB) : ℝ :=
  1.0 - pixel_dist w bk / bg_dist

/-- `alpha = np.clip(alpha, 0.0, 1.0)`. -/
noncomputable def alpha (w bk : RGB) : ℝ :=
  clip (alpha_raw w bk) 0.0 1.0

/-- `alpha_safe = np.where(alpha > 0.01, alpha, 1.0)`: the divisor
actually used when un-premultiplying the color. -/
noncomputable def alpha_safe (w bk : RGB) : ℝ :=
  if alpha w bk > 0.01 then alpha w bk else 1.0

/-- One pixel of the engine's computation: divide the black-capture
channels by `alpha_safe`, zero the color where `alpha ≤ 0.01`, then
round/clamp each channel and `alpha * 255` to 8 bits. -/
noncomputable def extract_pixel (w bk : RGB) : RGBA :=
  let a := alpha w bk
  let r_out : ℝ := if a > 0.01 then (bk.r : ℝ) / alpha_safe w bk else 0
  let g_out : ℝ := if a > 0.01 then (bk.g : ℝ) / alpha_safe w bk else 0
  let b_out : ℝ := if a > 0.01 then (bk.b : ℝ) / alpha_safe w bk else 0
  { r := quantize r_out
    g := quantize g_out
    b := quantize b_out
    a := quantize (a * 255) }

/-- The RGBA buffer the engine produces on same-shaped inputs:
`np.stack([r_out, g_out, b_out, a_out], axis=2)`, i.e. at every grid
position the per-pixel result on the co-located input pixels. -/
noncomputable def ok_output (img_white img_black : PixelBuffer) : RGBABuffer :=
  { height := img_white.height
    width := img_white.width
    pix := fun i j => extract_pixel (img_white.pix i j) (img_black.pix i j) }

/-- The engine: `extract_alpha_two_pass` from shape check to packed
RGBA output.  Both decoded arrays have shape `(height, width, 3)`, so
the source's `img_white.shape != img_black.shape` test is exactly a
height or width disagreement. -/
noncomputable def extract_alpha_two_pass (img_white img_black : PixelBuffer) :
    Except ExtractError RGBABuffer :=
  if (img_white.height, img_white.width) ≠ (img_black.height, img_black.width) then
    Except.error ExtractError.shapeMismatch
  else
    Except.ok (ok_output img_white img_black)

/-- Modelled from the spec's reference per-pixel algorithm (§4 of the
specification): `pixel_dist = sqrt((Rw−Rb)² + (Gw−Gb)² + (Bw−Bb)²)`,
`alpha = clamp(1 − pixel_dist / sqrt(3·255²), 0, 1)`, color channels
`black / alpha` when `alpha > 0.01` and `(0,0,0)` otherwise, then each
color channel and `alpha × 255` rounded to the nearest integer and
clamped to [0, 255]. -/
noncomputable def spec_pixel (w bk : RGB) : RGBA :=
  let d : ℝ := Real.sqrt (((w.r : ℝ) - (bk.r : ℝ)) ^ 2
    + ((w.g : ℝ) - (bk.g : ℝ)) ^ 2
    + ((w.b : ℝ) - (bk.b : ℝ)) ^ 2)
  let a : ℝ := clip (1 - d / Real.sqrt (3 * 255 ^ 2)) 0 1
  let r_out : ℝ := if a > 0.01 then (bk.r : ℝ) / a else 0
  let g_out : ℝ := if a > 0.01 then (bk.g : ℝ) / a else 0
  let b_out : ℝ := if a > 0.01 then (bk.b : ℝ) / a else 0
  { r := quantize r_out
    g := quantize g_out
    b := quantize b_out
    a := quantize (a * 255) }

/-- A constant buffer, used to build concrete test images. -/
def constBuf (h w : ℕ) (p : RGB) : PixelBuffer :=
  { height := h, width := w, pix := fun _ _ => p }

/-! ### Basic lemmas about the rounding and clamping model -/

theorem roundEven_le (x : ℝ) : (roundEven x : ℝ) ≤ x + 1 / 2 := by
  unfold roundEven
  by_cases h : Int.fract x = 1 / 2
  · rw [if_pos h]
    have hfl : (⌊x⌋ : ℝ) = x - 1 / 2 := by
      have := Int.self_sub_floor x
      rw [h] at this
      linarith
    by_cases he : ⌊x⌋ % 2 = 0
    · rw [if_pos he]; rw [hfl]; linarith
    · rw [if_neg he]; push_cast; rw [hfl]; linarith
  · rw [if_neg h, round_eq]
    exact Int.floor_le (x + 1 / 2)

theorem le_roundEven (x : ℝ) : x - 1 / 2 ≤ (roundEven x : ℝ) := by
  unfold roundEven
  by_cases h : Int.fract x = 1 / 2
  · rw [if_pos h]
    have hfl : (⌊x⌋ : ℝ) = x - 1 / 2 := by
      have := Int.self_sub_floor x
      rw [h] at this
      linarith
    by_cases he : ⌊x⌋ % 2 = 0
    · rw [if_pos he, hfl]
    · rw [if_neg he]; push_cast; rw [hfl]; linarith
  · rw [if_neg h, round_eq]
    have := Int.sub_one_lt_floor (x + 1 / 2)
    linarith

theorem roundEven_mono {x y : ℝ} (hxy : x ≤ y) : roundEven x ≤ roundEven y := by
  by_contra hcon
  push_neg at hcon
  have h1 : (roundEven x : ℝ) ≤ x + 1 / 2 := roundEven_le x
  have h2 : y - 1 / 2 ≤ (roundEven y : ℝ) := le_roundEven y
  have h3 : (roundEven y : ℝ) + 1 ≤ (roundEven x : ℝ) := by
    have : roundEven y + 1 ≤ roundEven x := hcon
    exact_mod_cast this
  have hxy' : x = y := by linarith
  rw [hxy'] at hcon
  exact lt_irrefl _ hcon

theorem roundEven_intCast (n : ℤ) : roundEven (n : ℝ) = n := by
  unfold roundEven
  rw [if_neg, round_intCast]
  rw [Int.fract_intCast]
  norm_num

theorem roundEven_natCast (n : ℕ) : roundEven (n : ℝ) = n := by
  have : ((n : ℤ) : ℝ) = (n : ℝ) := by push_cast; ring
  rw [← this, roundEven_intCast]

theorem quantize_le_255 (x : ℝ) : quantize x ≤ 255 := by
  unfold quantize
  rw [Int.toNat_le]
  exact le_trans (min_le_left _ _) (by norm_num)

theorem quantize_mono {x y : ℝ} (h : x ≤ y) : quantize x ≤ quantize y := by
  unfold quantize
  exact Int.toNat_le_toNat (min_le_min le_rfl (max_le_max (roundEven_mono h) le_rfl))

theorem quantize_natCast (n : ℕ) (h : n ≤ 255) : quantize (n : ℝ) = n := by
  unfold quantize
  rw [roundEven_natCast]
  have h0 : max ((n : ℤ)) 0 = (n : ℤ) := max_eq_left (by positivity)
  rw [h0, min_eq_right (by exact_mod_cast h)]
  simp

theorem quantize_zero : quantize 0 = 0 := by
  have : ((0 : ℕ) : ℝ) = 0 := by norm_num
  rw [← this, quantize_natCast 0 (by norm_num)]

theorem bg_dist_pos : 0 < bg_dist := by
  unfold bg_dist
  rw [Real.sqrt_pos]
  norm_num

theorem pixel_dist_nonneg (w bk : RGB) : 0 ≤ pixel_dist w bk :=
  Real.sqrt_nonneg _

theorem pixel_dist_comm (w bk : RGB) : pixel_dist w bk = pixel_dist bk w := by
  unfold pixel_dist
  congr 1
  ring

theorem pixel_dist_self (p : RGB) : pixel_dist p p = 0 := by
  unfold pixel_dist
  simp

theorem alpha_nonneg (w bk : RGB) : 0 ≤ alpha w bk := by
  unfold alpha clip
  have h1 : (0.0 : ℝ) ≤ max (alpha_raw w bk) 0.0 := by
    norm_num [le_max_iff]
  have h2 : (0.0 : ℝ) ≤ (1.0 : ℝ) := by norm_num
  rw [le_min_iff]
  constructor
  · norm_num
  · norm_num [le_max_iff]

theorem alpha_le_one (w bk : RGB) : alpha w bk ≤ 1 := by
  unfold alpha clip
  have := min_le_left (1.0 : ℝ) (max (alpha_raw w bk) 0.0)
  calc min (1.0 : ℝ) (max (alpha_raw w bk) 0.0) ≤ (1.0 : ℝ) := this
    _ = 1 := by norm_num

theorem alpha_safe_gt (w bk : RGB) : 0.01 < alpha_safe w bk := by
  unfold alpha_safe
  by_cases h : alpha w bk > 0.01
  · rw [if_pos h]; exact h
  · rw [if_neg h]; norm_num

/-! ### Evaluation lemmas for concrete pixels -/

theorem sqrt_triple_sq (c : ℝ) (hc : 0 ≤ c) :
    Real.sqrt (c ^ 2 + c ^ 2 + c ^ 2) = c * Real.sqrt 3 := by
  have h : c ^ 2 + c ^ 2 + c ^ 2 = c ^ 2 * 3 := by ring
  rw [h, Real.sqrt_mul (sq_nonneg c), Real.sqrt_sq hc]

theorem bg_dist_eq : bg_dist = 255 * Real.sqrt 3 := by
  unfold bg_dist
  have h : (3.0 : ℝ) * 255 * 255 = 255 ^ 2 * 3 := by norm_num
  rw [h, Real.sqrt_mul (by positivity), Real.sqrt_sq (by norm_num)]

theorem alpha_raw_of_dist (w bk : RGB) (c : ℝ)
    (hd : pixel_dist w bk = c * Real.sqrt 3) :
    alpha_raw w bk = 1 - c / 255 := by
  unfold alpha_raw
  rw [hd, bg_dist_eq, mul_div_mul_right _ _ (Real.sqrt_ne_zero'.mpr (by norm_num))]
  norm_num

theorem alpha_self (p : RGB) : alpha p p = 1 := by
  have hraw : alpha_raw p p = 1 := by
    unfold alpha_raw
    rw [pixel_dist_self]
    norm_num
  unfold alpha clip
  rw [hraw]
  norm_num

theorem alpha_of_dist_bg (w bk : RGB) (hd : pixel_dist w bk = bg_dist) :
    alpha w bk = 0 := by
  have hraw : alpha_raw w bk = 0 := by
    unfold alpha_raw
    rw [hd, div_self (ne_of_gt bg_dist_pos)]
    norm_num
  unfold alpha clip
  rw [hraw]
  norm_num

/-! ### Unfolding lemmas for the engine -/

theorem extract_pixel_of_gt (w bk : RGB) (h : alpha w bk > 0.01) :
    extract_pixel w bk =
      { r := quantize ((bk.r : ℝ) / alpha w bk)
        g := quantize ((bk.g : ℝ) / alpha w bk)
        b := quantize ((bk.b : ℝ) / alpha w bk)
        a := quantize (alpha w bk * 255) } := by
  have hsafe : alpha_safe w bk = alpha w bk := if_pos h
  simp only [extract_pixel]
  rw [if_pos h, if_pos h, if_pos h, hsafe]

theorem extract_pixel_of_le (w bk : RGB) (h : ¬alpha w bk > 0.01) :
    extract_pixel w bk =
      { r := 0, g := 0, b := 0, a := quantize (alpha w bk * 255) } := by
  simp only [extract_pixel]
  rw [if_neg h, if_neg h, if_neg h, quantize_zero]

theorem extract_eq_ok (img_white img_black : PixelBuffer)
    (hh : img_white.height = img_black.height)
    (hw : img_white.width = img_black.width) :
    extract_alpha_two_pass img_white img_black =
      Except.ok (ok_output img_white img_black) := by
  unfold extract_alpha_two_pass
  rw [if_neg]
  simp [hh, hw]

theorem extract_eq_error (img_white img_black : PixelBuffer)
    (h : ¬(img_white.height = img_black.height ∧ img_white.width = img_black.width)) :
    extract_alpha_two_pass img_white img_black =
      Except.error ExtractError.shapeMismatch := by
  unfold extract_alpha_two_pass
  rw [if_pos]
  intro hc
  rw [Prod.mk.injEq] at hc
  exact h hc

theorem extract_ok_elim (img_white img_black : PixelBuffer) (out : RGBABuffer)
    (h : extract_alpha_two_pass img_white img_black = Except.ok out) :
    out = ok_output img_white img_black := by
  unfold extract_alpha_two_pass at h
  by_cases hc : (img_white.height, img_white.width) ≠ (img_black.height, img_black.width)
  · rw [if_pos hc] at h
    cases h
  · rw [if_neg hc] at h
    cases h
    rfl

theorem pixel_dist_def (w bk : RGB) :
    Real.sqrt (((w.r : ℝ) - (bk.r : ℝ)) ^ 2
      + ((w.g : ℝ) - (bk.g : ℝ)) ^ 2
      + ((w.b : ℝ) - (bk.b : ℝ)) ^ 2) = pixel_dist w bk := rfl

theorem extract_pixel_a (w bk : RGB) :
    (extract_pixel w bk).a = quantize (alpha w bk * 255) := by
  by_cases h : alpha w bk > 0.01
  · rw [extract_pixel_of_gt w bk h]
  · rw [extract_pixel_of_le w bk h]

theorem alpha_comm (w bk : RGB) : alpha w bk = alpha bk w := by
  unfold alpha alpha_raw
  rw [pixel_dist_comm]

theorem extract_pixel_channels_le (w bk : RGB) :
    (extract_pixel w bk).r ≤ 255 ∧ (extract_pixel w bk).g ≤ 255 ∧
    (extract_pixel w bk).b ≤ 255 ∧ (extract_pixel w bk).a ≤ 255 := by
  by_cases h : alpha w bk > 0.01
  · rw [extract_pixel_of_gt w bk h]
    exact ⟨quantize_le_255 _, quantize_le_255 _, quantize_le_255 _, quantize_le_255 _⟩
  · rw [extract_pixel_of_le w bk h]
    exact ⟨by norm_num, by norm_num, by norm_num, quantize_le_255 _⟩

theorem extract_pixel_eq_spec_pixel (w bk : RGB) :
    extract_pixel w bk = spec_pixel w bk := by
  have hbg : Real.sqrt ((3 : ℝ) * 255 ^ 2) = bg_dist := by
    unfold bg_dist
    congr 1
    norm_num
  have ha : clip (1 - pixel_dist w bk / Real.sqrt ((3 : ℝ) * 255 ^ 2)) 0 1
      = alpha w bk := by
    rw [hbg]
    unfold alpha alpha_raw clip
    norm_num
  simp only [spec_pixel]
  rw [pixel_dist_def, ha]
  by_cases h : alpha w bk > 0.01
  · rw [extract_pixel_of_gt w bk h, if_pos h, if_pos h, if_pos h]
  · rw [extract_pixel_of_le w bk h, if_neg h, if_neg h, if_neg h, quantize_zero]

theorem alpha_inputs_255_222 : alpha ⟨255, 255, 255⟩ ⟨2, 2, 2⟩ = 2 / 255 := by
  have h1 : pixel_dist ⟨255, 255, 255⟩ ⟨2, 2, 2⟩
      = Real.sqrt ((253 : ℝ) ^ 2 + 253 ^ 2 + 253 ^ 2) := by
    unfold pixel_dist
    norm_num
  have hd : pixel_dist ⟨255, 255, 255⟩ ⟨2, 2, 2⟩ = 253 * Real.sqrt 3 := by
    rw [h1, sqrt_triple_sq 253 (by norm_num)]
  have hraw := alpha_raw_of_dist ⟨255, 255, 255⟩ ⟨2, 2, 2⟩ 253 hd
  unfold alpha clip
  rw [hraw]
  rw [max_eq_left (by norm_num), min_eq_right (by norm_num)]
  norm_num

/-! ### The claims -/

/-- C1: for every pair of same-shaped RGB input buffers and every pixel
position, the output RGBA pixel equals the result of the reference
per-pixel algorithm of the specification (`spec_pixel`), so the output
depends only on the co-located input pixels. -/
theorem c1_pixelwise_matches_spec (img_white img_black : PixelBuffer)
    (out : RGBABuffer)
    (h : extract_alpha_two_pass img_white img_black = Except.ok out)
    (i j : ℕ) (hi : i < out.height) (hj : j < out.width) :
    out.pix i j = spec_pixel (img_white.pix i j) (img_black.pix i j) := by
  have hout := extract_ok_elim _ _ _ h
  subst hout
  exact extract_pixel_eq_spec_pixel _ _

theorem c1_witness :
    extract_alpha_two_pass (constBuf 1 1 ⟨200, 50, 50⟩) (constBuf 1 1 ⟨200, 50, 50⟩)
      = Except.ok (ok_output (constBuf 1 1 ⟨200, 50, 50⟩) (constBuf 1 1 ⟨200, 50, 50⟩)) ∧
    (ok_output (constBuf 1 1 ⟨200, 50, 50⟩) (constBuf 1 1 ⟨200, 50, 50⟩)).pix 0 0
      = spec_pixel ⟨200, 50, 50⟩ ⟨200, 50, 50⟩ := by
  have h : extract_alpha_two_pass (constBuf 1 1 ⟨200, 50, 50⟩) (constBuf 1 1 ⟨200, 50, 50⟩)
      = Except.ok (ok_output (constBuf 1 1 ⟨200, 50, 50⟩) (constBuf 1 1 ⟨200, 50, 50⟩)) :=
    extract_eq_ok _ _ rfl rfl
  exact ⟨h, c1_pixelwise_matches_spec _ _ _ h 0 0 Nat.one_pos Nat.one_pos⟩

/-- C2: the engine fails with `ShapeMismatch` if and only if the two
inputs do not have identical height and width; on failure no output
buffer is produced (the result is the bare error, and the output file
is only written from a successful result), and on every same-shaped
pair it succeeds with the full RGBA buffer — `ExtractError` has no
other constructor, so there is no other error, and no other
precondition. -/
theorem c2_shape_mismatch_iff (img_white img_black : PixelBuffer) :
    (extract_alpha_two_pass img_white img_black
        = Except.error ExtractError.shapeMismatch
      ↔ ¬(img_white.height = img_black.height ∧ img_white.width = img_black.width)) ∧
    ((img_white.height = img_black.height ∧ img_white.width = img_black.width) →
      extract_alpha_two_pass img_white img_black
        = Except.ok (ok_output img_white img_black)) := by
  constructor
  · constructor
    · intro herr hc
      rw [extract_eq_ok _ _ hc.1 hc.2] at herr
      cases herr
    · intro hne
      exact extract_eq_error _ _ hne
  · intro hc
    exact extract_eq_ok _ _ hc.1 hc.2

theorem c2_witness :
    extract_alpha_two_pass (constBuf 2 2 ⟨0, 0, 0⟩) (constBuf 1 1 ⟨0, 0, 0⟩)
      = Except.error ExtractError.shapeMismatch ∧
    extract_alpha_two_pass (constBuf 1 1 ⟨0, 0, 0⟩) (constBuf 1 1 ⟨1, 2, 3⟩)
      = Except.ok (ok_output (constBuf 1 1 ⟨0, 0, 0⟩) (constBuf 1 1 ⟨1, 2, 3⟩)) := by
  constructor
  · exact (c2_shape_mismatch_iff (constBuf 2 2 ⟨0, 0, 0⟩) (constBuf 1 1 ⟨0, 0, 0⟩)).1.mpr
      (by decide)
  · exact (c2_shape_mismatch_iff (constBuf 1 1 ⟨0, 0, 0⟩) (constBuf 1 1 ⟨1, 2, 3⟩)).2
      ⟨rfl, rfl⟩

/-- C3: whenever the clipped alpha is at most 0.01 the output color
channels are exactly (0,0,0); the divisor actually used,
`alpha_safe`, always exceeds 0.01, so no division by a zero or
near-zero alpha is ever evaluated; and the white-capture pixel
(255,255,255) paired with the black-capture pixel (2,2,2) yields
color (0,0,0) with the quantized alpha 2. -/
theorem c3_near_zero_alpha_guarded (w bk : RGB) :
    (alpha w bk ≤ 0.01 →
      (extract_pixel w bk).r = 0 ∧ (extract_pixel w bk).g = 0 ∧
        (extract_pixel w bk).b = 0) ∧
    0.01 < alpha_safe w bk ∧
    extract_pixel ⟨255, 255, 255⟩ ⟨2, 2, 2⟩ = ⟨0, 0, 0, 2⟩ := by
  refine ⟨?_, alpha_safe_gt w bk, ?_⟩
  · intro hle
    rw [extract_pixel_of_le w bk (not_lt.mpr hle)]
    exact ⟨rfl, rfl, rfl⟩
  · have hle : ¬alpha ⟨255, 255, 255⟩ ⟨2, 2, 2⟩ > 0.01 := by
      rw [alpha_inputs_255_222]
      norm_num
    rw [extract_pixel_of_le _ _ hle, alpha_inputs_255_222]
    have h2 : (2 : ℝ) / 255 * 255 = ((2 : ℕ) : ℝ) := by norm_num
    rw [h2, quantize_natCast 2 (by norm_num)]

theorem c3_witness :
    ((extract_pixel ⟨255, 255, 255⟩ ⟨2, 2, 2⟩).r = 0 ∧
      (extract_pixel ⟨255, 255, 255⟩ ⟨2, 2, 2⟩).g = 0 ∧
      (extract_pixel ⟨255, 255, 255⟩ ⟨2, 2, 2⟩).b = 0) ∧
    0.01 < alpha_safe ⟨255, 255, 255⟩ ⟨2, 2, 2⟩ := by
  have h := c3_near_zero_alpha_guarded ⟨255, 255, 255⟩ ⟨2, 2, 2⟩
  refine ⟨h.1 ?_, h.2.1⟩
  rw [alpha_inputs_255_222]
  norm_num

/-- C4: for a pixel whose white-capture and black-capture values are
identical (so `pixel_dist = 0`), the output alpha is exactly 255 and
the output color channels are the black-capture channels unchanged. -/
theorem c4_identical_pixel (w bk : RGB)
    (hr : bk.r ≤ 255) (hg : bk.g ≤ 255) (hb : bk.b ≤ 255) (heq : w = bk) :
    extract_pixel w bk = ⟨bk.r, bk.g, bk.b, 255⟩ := by
  subst heq
  have ha : alpha w w = 1 := alpha_self w
  have hgt : alpha w w > 0.01 := by rw [ha]; norm_num
  rw [extract_pixel_of_gt w w hgt, ha]
  have h255 : (1 : ℝ) * 255 = ((255 : ℕ) : ℝ) := by norm_num
  rw [div_one, div_one, div_one, h255, quantize_natCast _ hr,
    quantize_natCast _ hg, quantize_natCast _ hb, quantize_natCast 255 le_rfl]

theorem c4_witness :
    extract_pixel ⟨200, 50, 50⟩ ⟨200, 50, 50⟩ = ⟨200, 50, 50, 255⟩ :=
  c4_identical_pixel ⟨200, 50, 50⟩ ⟨200, 50, 50⟩
    (by norm_num) (by norm_num) (by norm_num) rfl

/-- C5: whenever the observed channel-space distance equals `bg_dist`
exactly, the output pixel is (0,0,0,0). -/
theorem c5_full_distance_transparent (w bk : RGB)
    (hd : pixel_dist w bk = bg_dist) :
    extract_pixel w bk = ⟨0, 0, 0, 0⟩ := by
  have ha : alpha w bk = 0 := alpha_of_dist_bg w bk hd
  have hle : ¬alpha w bk > 0.01 := by rw [ha]; norm_num
  rw [extract_pixel_of_le w bk hle, ha, zero_mul, quantize_zero]

theorem c5_witness :
    extract_pixel ⟨255, 255, 255⟩ ⟨0, 0, 0⟩ = ⟨0, 0, 0, 0⟩ := by
  apply c5_full_distance_transparent
  have h1 : pixel_dist ⟨255, 255, 255⟩ ⟨0, 0, 0⟩
      = Real.sqrt ((255 : ℝ) ^ 2 + 255 ^ 2 + 255 ^ 2) := by
    unfold pixel_dist
    norm_num
  rw [h1, sqrt_triple_sq 255 (by norm_num), bg_dist_eq]

/-- C6: the quantized alpha is monotonically non-increasing in
`pixel_dist` (with `bg_dist` fixed): a pixel pair with the smaller or
equal distance gets the greater or equal output alpha; and the
quantized alpha always lies in [0, 255] (the lower bound holds by the
channel type, the upper is proved). -/
theorem c6_alpha_monotone_bounded (w1 b1 w2 b2 : RGB) :
    (pixel_dist w1 b1 ≤ pixel_dist w2 b2 →
      (extract_pixel w2 b2).a ≤ (extract_pixel w1 b1).a) ∧
    (extract_pixel w1 b1).a ≤ 255 := by
  constructor
  · intro hd
    rw [extract_pixel_a, extract_pixel_a]
    apply quantize_mono
    apply mul_le_mul_of_nonneg_right _ (by norm_num : (0 : ℝ) ≤ 255)
    unfold alpha clip alpha_raw
    apply min_le_min le_rfl
    apply max_le_max _ le_rfl
    have hdiv : pixel_dist w1 b1 / bg_dist ≤ pixel_dist w2 b2 / bg_dist :=
      (div_le_div_iff_of_pos_right bg_dist_pos).mpr hd
    linarith
  · rw [extract_pixel_a]
    exact quantize_le_255 _

theorem c6_witness :
    pixel_dist ⟨0, 0, 0⟩ ⟨0, 0, 0⟩ ≤ pixel_dist ⟨255, 255, 255⟩ ⟨0, 0, 0⟩ ∧
    (extract_pixel ⟨255, 255, 255⟩ ⟨0, 0, 0⟩).a ≤ (extract_pixel ⟨0, 0, 0⟩ ⟨0, 0, 0⟩).a ∧
    (extract_pixel ⟨0, 0, 0⟩ ⟨0, 0, 0⟩).a ≤ 255 := by
  have hd : pixel_dist ⟨0, 0, 0⟩ ⟨0, 0, 0⟩ ≤ pixel_dist ⟨255, 255, 255⟩ ⟨0, 0, 0⟩ := by
    rw [pixel_dist_self]
    exact pixel_dist_nonneg _ _
  have h := c6_alpha_monotone_bounded ⟨0, 0, 0⟩ ⟨0, 0, 0⟩ ⟨255, 255, 255⟩ ⟨0, 0, 0⟩
  exact ⟨hd, h.1 hd, h.2⟩

/-- C7: the engine is deterministic — on byte-identical pairs of
input buffers two runs produce byte-identical results; the embedded
function is pure, so equal inputs give equal outputs. -/
theorem c7_deterministic (w1 b1 w2 b2 : PixelBuffer)
    (hw : w1 = w2) (hb : b1 = b2) :
    extract_alpha_two_pass w1 b1 = extract_alpha_two_pass w2 b2 := by
  rw [hw, hb]

theorem c7_witness :
    extract_alpha_two_pass (constBuf 1 1 ⟨10, 20, 30⟩) (constBuf 1 1 ⟨5, 5, 5⟩)
      = extract_alpha_two_pass (constBuf 1 1 ⟨10, 20, 30⟩) (constBuf 1 1 ⟨5, 5, 5⟩) :=
  c7_deterministic (constBuf 1 1 ⟨10, 20, 30⟩) (constBuf 1 1 ⟨5, 5, 5⟩)
    (constBuf 1 1 ⟨10, 20, 30⟩) (constBuf 1 1 ⟨5, 5, 5⟩) rfl rfl

/-- C8: on same-shaped inputs the engine succeeds and the output
buffer has the same height and width as the inputs, one RGBA pixel
(four 8-bit channel samples) per position, every channel sample at
most 255 (and at least 0, by the channel type). -/
theorem c8_output_shape_and_range (img_white img_black : PixelBuffer)
    (hh : img_white.height = img_black.height)
    (hw : img_white.width = img_black.width) :
    ∃ out : RGBABuffer,
      extract_alpha_two_pass img_white img_black = Except.ok out ∧
      out.height = img_white.height ∧ out.width = img_white.width ∧
      ∀ i j : ℕ, (out.pix i j).r ≤ 255 ∧ (out.pix i j).g ≤ 255 ∧
        (out.pix i j).b ≤ 255 ∧ (out.pix i j).a ≤ 255 := by
  refine ⟨ok_output img_white img_black, extract_eq_ok _ _ hh hw, rfl, rfl, ?_⟩
  intro i j
  exact extract_pixel_channels_le _ _

theorem c8_witness :
    ∃ out : RGBABuffer,
      extract_alpha_two_pass (constBuf 1 1 ⟨7, 8, 9⟩) (constBuf 1 1 ⟨1, 2, 3⟩)
        = Except.ok out ∧
      out.height = (constBuf 1 1 ⟨7, 8, 9⟩).height ∧
      out.width = (constBuf 1 1 ⟨7, 8, 9⟩).width ∧
      ∀ i j : ℕ, (out.pix i j).r ≤ 255 ∧ (out.pix i j).g ≤ 255 ∧
        (out.pix i j).b ≤ 255 ∧ (out.pix i j).a ≤ 255 :=
  c8_output_shape_and_range (constBuf 1 1 ⟨7, 8, 9⟩) (constBuf 1 1 ⟨1, 2, 3⟩) rfl rfl

/-- C9: the output alpha channel is symmetric in the two inputs — on
same-shaped buffers, swapping the white-capture and black-capture
roles leaves every output alpha value unchanged, because the
per-pixel Euclidean distance is symmetric. -/
theorem c9_alpha_symmetric (img_white img_black : PixelBuffer)
    (hh : img_white.height = img_black.height)
    (hw : img_white.width = img_black.width) :
    ∃ out1 out2 : RGBABuffer,
      extract_alpha_two_pass img_white img_black = Except.ok out1 ∧
      extract_alpha_two_pass img_black img_white = Except.ok out2 ∧
      ∀ i j : ℕ, (out1.pix i j).a = (out2.pix i j).a := by
  refine ⟨ok_output img_white img_black, ok_output img_black img_white,
    extract_eq_ok _ _ hh hw, extract_eq_ok _ _ hh.symm hw.symm, ?_⟩
  intro i j
  show (extract_pixel (img_white.pix i j) (img_black.pix i j)).a
    = (extract_pixel (img_black.pix i j) (img_white.pix i j)).a
  rw [extract_pixel_a, extract_pixel_a, alpha_comm]

theorem c9_witness :
    ∃ out1 out2 : RGBABuffer,
      extract_alpha_two_pass (constBuf 1 1 ⟨9, 9, 9⟩) (constBuf 1 1 ⟨3, 3, 3⟩)
        = Except.ok out1 ∧
      extract_alpha_two_pass (constBuf 1 1 ⟨3, 3, 3⟩) (constBuf 1 1 ⟨9, 9, 9⟩)
        = Except.ok out2 ∧
      ∀ i j : ℕ, (out1.pix i j).a = (out2.pix i j).a :=
  c9_alpha_symmetric (constBuf 1 1 ⟨9, 9, 9⟩) (constBuf 1 1 ⟨3, 3, 3⟩) rfl rfl

/-- C10: the quantization rounding mode is round-half-to-even: the
rounding step (`np.round`, embedded as `roundEven`) sends any value
exactly halfway between two integers to the even neighbor; in
particular the quantizer maps 0.5 to 0 and 1.5 to 2. -/
theorem c10_round_half_even :
    (∀ n : ℤ, roundEven ((n : ℝ) + 1 / 2) = if n % 2 = 0 then n else n + 1) ∧
    quantize ((1 : ℝ) / 2) = 0 ∧ quantize ((3 : ℝ) / 2) = 2 := by
  have key : ∀ n : ℤ, roundEven ((n : ℝ) + 1 / 2) = if n % 2 = 0 then n else n + 1 := by
    intro n
    have hfr : Int.fract ((n : ℝ) + 1 / 2) = 1 / 2 := by
      rw [Int.fract_int_add]
      exact Int.fract_eq_self.mpr ⟨by norm_num, by norm_num⟩
    have hfl : ⌊(n : ℝ) + 1 / 2⌋ = n := by
      rw [Int.floor_int_add]
      have h0 : ⌊(1 / 2 : ℝ)⌋ = 0 := by
        rw [Int.floor_eq_zero_iff, Set.mem_Ico]
        constructor <;> norm_num
      rw [h0, add_zero]
    unfold roundEven
    rw [if_pos hfr, hfl]
  refine ⟨key, ?_, ?_⟩
  · have h : ((1 : ℝ) / 2) = ((0 : ℤ) : ℝ) + 1 / 2 := by norm_num
    unfold quantize
    rw [h, key 0]
    decide
  · have h : ((3 : ℝ) / 2) = ((1 : ℤ) : ℝ) + 1 / 2 := by norm_num
    unfold quantize
    rw [h, key 1]
    decide

end Pngalpha
